import Mathlib

/-!
Verification development for the Maxy Auto-FAQ bot (`maxy_auto_faq.py`).

The embedding models Python strings as `List Char`, the FAQ dictionary as an
association list in insertion order (Python dicts preserve insertion order),
and real arithmetic on similarity scores and thresholds exactly with `ℚ`
(the Python floats `2.0 * M / T` are the roundings of these rationals; every
comparison used in the claims below is robust to that rounding).

`difflib.SequenceMatcher(None, a, b).ratio()` is embedded by the
Ratcliff/Obershelp procedure that `difflib` implements: repeatedly take the
longest matching block (`find_longest_match`), recurse on both sides, and
return `2*M/T` where `M` is the total matched length and `T` the combined
length.  `find_longest_match` scans ending positions `i` (in `a`) ascending,
and for each `i` the matching `j` (in `b`) ascending, keeping a candidate only
when its run length strictly exceeds the best so far; so the block returned is
the maximal-length block whose ending pair `(i, j)` is lexicographically
smallest.  The `autojunk` heuristic of `difflib` only affects second strings
of length ≥ 200 and is not modelled; the junk-extension loops of
`find_longest_match` are provably no-ops when there is no junk.
-/

set_option maxRecDepth 100000

namespace AutoFaq

/-- Python strings are modelled as lists of characters. -/
abbrev Str := List Char

/-- The FAQ dictionary `faqs` (question → answer), in insertion order. -/
abbrev Store := List (Str × Str)

/-- `normalize_text` from the source: lowercase, then split on whitespace and
rejoin with single spaces (`" ".join(s.lower().strip().split())`; the
`strip()` is subsumed by `split()`).  Case folding is modelled by
`Char.toLower`. -/
def normalize_text (s : Str) : Str :=
  List.intercalate [' ']
    (((s.map Char.toLower).splitOnP Char.isWhitespace).filter (fun w => ¬ w.isEmpty))

/-- Length of the longest common run of equal characters ending at positions
`i` in `a` and `j` in `b` (inclusive).  This is the quantity `difflib`
accumulates in `j2len` inside `find_longest_match`. -/
def backRun (a b : Str) : ℕ → ℕ → ℕ
  | 0, j =>
    match a[0]?, b[j]? with
    | some x, some y => if x = y then 1 else 0
    | _, _ => 0
  | i + 1, j =>
    match a[i + 1]?, b[j]? with
    | some x, some y =>
      if x = y then
        match j with
        | 0 => 1
        | j' + 1 => backRun a b i j' + 1
      else 0
    | _, _ => 0

/-- Length of the longest matching run ending at `(i, j)` that stays inside
the window starting at `(alo, blo)` — the run length `find_longest_match`
associates with ending pair `(i, j)`. -/
def runLen (a b : Str) (alo blo i j : ℕ) : ℕ :=
  min (backRun a b i j) (min (i - alo + 1) (j - blo + 1))

/-- All ending pairs `(i, j)` of the window, in the scan order of
`find_longest_match`: `i` ascending, then `j` ascending. -/
def candPairs (alo ahi blo bhi : ℕ) : List (ℕ × ℕ) :=
  (List.range' alo (ahi - alo)).flatMap
    (fun i => (List.range' blo (bhi - blo)).map (fun j => (i, j)))

/-- One step of the best-block scan: a candidate replaces the current best
only when its run length is strictly larger (`if k > bestsize`). -/
def flmStep (a b : Str) (alo blo : ℕ) (best : ℕ × ℕ × ℕ) (p : ℕ × ℕ) : ℕ × ℕ × ℕ :=
  let k := runLen a b alo blo p.1 p.2
  if best.2.2 < k then (p.1, p.2, k) else best

/-- The winning ending pair and run length of the window scan. -/
def flmEnd (a b : Str) (alo ahi blo bhi : ℕ) : ℕ × ℕ × ℕ :=
  (candPairs alo ahi blo bhi).foldl (flmStep a b alo blo) (alo, blo, 0)

/-- `find_longest_match` on the window `[alo, ahi) × [blo, bhi)` (no junk):
returns `(i, j, k)`, the start positions and length of the chosen block;
`(alo, blo, 0)` when there is no match. -/
def findLongestMatch (a b : Str) (alo ahi blo bhi : ℕ) : ℕ × ℕ × ℕ :=
  let e := flmEnd a b alo ahi blo bhi
  if e.2.2 = 0 then (alo, blo, 0)
  else (e.1 + 1 - e.2.2, e.2.1 + 1 - e.2.2, e.2.2)

/-- Total matched length of `get_matching_blocks` restricted to a window,
with explicit fuel.  Each recursive call strictly shrinks
`(ahi - alo) + (bhi - blo)`, so fuel equal to that size is never exhausted
(`matchesInF_congr` below); on an empty window every fuel value returns 0. -/
def matchesInF (a b : Str) : ℕ → ℕ → ℕ → ℕ → ℕ → ℕ
  | 0, _, _, _, _ => 0
  | fuel + 1, alo, ahi, blo, bhi =>
    let t := findLongestMatch a b alo ahi blo bhi
    if t.2.2 = 0 then 0
    else
      t.2.2 + matchesInF a b fuel alo t.1 blo t.2.1
        + matchesInF a b fuel (t.1 + t.2.2) ahi (t.2.1 + t.2.2) bhi

/-- `M`: the total size of all matching blocks found by
`SequenceMatcher(None, a, b).get_matching_blocks()`. -/
def matchesTotal (a b : Str) : ℕ :=
  matchesInF a b (a.length + b.length) 0 a.length 0 b.length

/-- `SequenceMatcher(None, a, b).ratio()`: `2*M/T`, and 1 when both strings
are empty (`_calculate_ratio` returns 1.0 for total length 0). -/
def similarity (a b : Str) : ℚ :=
  if a.length + b.length = 0 then 1
  else 2 * (matchesTotal a b : ℚ) / ((a.length : ℚ) + (b.length : ℚ))

/-! ## The FAQ store and `best_faq_match` -/

/-- `question in faqs` on the Python dict. -/
def hasKey (faqs : Store) (q : Str) : Bool :=
  faqs.any (fun kv => kv.1 = q)

/-- `faqs[q] = a` on the Python dict: overwrite in place when the key exists
(keeping its position), append otherwise. -/
def dictSet (faqs : Store) (q a : Str) : Store :=
  if hasKey faqs q then faqs.map (fun kv => if kv.1 = q then (q, a) else kv)
  else faqs ++ [(q, a)]

/-- `del faqs[q]` on the Python dict. -/
def dictDel (faqs : Store) (q : Str) : Store :=
  faqs.filter (fun kv => ¬ kv.1 = q)

/-- `faqs[q]` read on the Python dict. -/
def dictGet (faqs : Store) (q : Str) : Option Str :=
  (faqs.find? (fun kv => kv.1 = q)).map (fun kv => kv.2)

/-- Python dicts cannot hold the same key twice; every store reachable in the
program satisfies this invariant. -/
def keysNodup (faqs : Store) : Prop :=
  (faqs.map Prod.fst).Nodup

instance (faqs : Store) : Decidable (keysNodup faqs) := by
  unfold keysNodup; infer_instance

/-- The score the loop body of `best_faq_match` computes for a stored key:
`SequenceMatcher(None, msg_norm, key_norm).ratio()`. -/
def scoreOf (msgNorm : Str) (kv : Str × Str) : ℚ :=
  similarity msgNorm (normalize_text kv.1)

/-- The loop body of `best_faq_match`: keep the incumbent unless the new
key's score is strictly greater (`if score > best_score`). -/
def faqScanStep (msgNorm : Str) (best : Option Str × ℚ) (kv : Str × Str) :
    Option Str × ℚ :=
  if best.2 < scoreOf msgNorm kv then (some kv.1, scoreOf msgNorm kv) else best

/-- The `for key in faqs.keys()` loop of `best_faq_match`, started from
`best_key = None`, `best_score = 0.0`. -/
def faqScan (msgNorm : Str) (faqs : Store) : Option Str × ℚ :=
  faqs.foldl (faqScanStep msgNorm) (none, 0)

/-- `best_faq_match(message)` with the threshold passed explicitly (the
source reads it from `config`): returns
`(best_key, faqs[best_key], best_score)` when `best_score >= threshold` and
`best_key is not None`, else `(None, None, best_score)`. -/
def best_faq_match (faqs : Store) (threshold : ℚ) (message : Str) :
    Option Str × Option Str × ℚ :=
  match faqScan (normalize_text message) faqs with
  | (some k, s) =>
    if threshold ≤ s then (some k, dictGet faqs k, s) else (none, none, s)
  | (none, s) => (none, none, s)

/-! ## FAQ mutation commands -/

/-- Outcome of an add command. -/
inductive AddResult where
  | noPermission
  | alreadyExists
  | added
deriving DecidableEq

/-- The slash command `faq_add`.  Note the source computes
`key = normalize_text(question)`, tests `key in faqs`, but then stores
`faqs[question] = answer`. -/
def faq_add (isAdmin : Bool) (faqs : Store) (question answer : Str) :
    AddResult × Store :=
  if isAdmin = false then (.noPermission, faqs)
  else if hasKey faqs (normalize_text question) then (.alreadyExists, faqs)
  else (.added, dictSet faqs question answer)

/-- The prefix command twin of `faq_add` (the `@bot.command` version), whose
duplicate test is `question in faqs` on the exact key; its permission
decorator is modelled by the `isAdmin` argument. -/
def cmd_faq_add (isAdmin : Bool) (faqs : Store) (question answer : Str) :
    AddResult × Store :=
  if isAdmin = false then (.noPermission, faqs)
  else if hasKey faqs question then (.alreadyExists, faqs)
  else (.added, dictSet faqs question answer)

/-- Outcome of a remove command; `removed k` reports which key was
actually deleted. -/
inductive RemoveResult where
  | noPermission
  | removed (key : Str)
  | notFound
deriving DecidableEq

/-- `faq_remove` (the slash command and its prefix twin share this body):
delete the exact key if present, otherwise delete the first key in
insertion order whose normalization equals the argument's, otherwise
report a miss. -/
def faq_remove (isAdmin : Bool) (faqs : Store) (question : Str) :
    RemoveResult × Store :=
  if isAdmin = false then (.noPermission, faqs)
  else if hasKey faqs question then (.removed question, dictDel faqs question)
  else
    match faqs.find? (fun kv => normalize_text kv.1 = normalize_text question) with
    | some kv => (.removed kv.1, dictDel faqs kv.1)
    | none => (.notFound, faqs)

/-! ## Configuration commands -/

/-- Outcome of `set_threshold`. -/
inductive ThresholdResult where
  | noPermission
  | validationError
  | ok
deriving DecidableEq

/-- The `set_threshold` slash command: reject the caller without admin
rights, reject values with `not (0.0 <= value <= 1.0)` leaving the stored
threshold untouched, otherwise store the value. -/
def set_threshold (isAdmin : Bool) (threshold value : ℚ) :
    ThresholdResult × ℚ :=
  if isAdmin = false then (.noPermission, threshold)
  else if ¬ (0 ≤ value ∧ value ≤ 1) then (.validationError, threshold)
  else (.ok, value)

/-! ## JSON loading -/

/-- What the filesystem presents at a path: no file, an unparsable file, or
a well-formed document with value `v`. -/
inductive ReadOutcome (α : Type) where
  | missing
  | malformed
  | ok (v : α)

/-- The exceptions relevant to `load_json`. -/
inductive PyExn where
  | fileNotFound
  | jsonDecode
  | other

/-- A Python evaluation either produces a value or raises. -/
inductive PyResult (α : Type) where
  | ok (v : α)
  | raised (e : PyExn)

/-- Filesystem side effect of `load_json`: the corrupt-file branch renames
the file to `path + ".bak"` (the surrounding `try/except: pass` swallows a
failing rename; the rename request itself is what we record). -/
inductive FsEffect where
  | none
  | renamedToBak
deriving DecidableEq

/-- The body of `load_json` before its handlers:
`open(path)` then `json.load` — raising `FileNotFoundError` for a missing
file and `json.JSONDecodeError` for unparsable content. -/
def json_read (r : ReadOutcome α) : PyResult α :=
  match r with
  | .missing => .raised .fileNotFound
  | .malformed => .raised .jsonDecode
  | .ok v => .ok v

/-- `load_json(path, default)`: the `try/except` of the source.  A missing
file yields the default; a corrupt file is renamed aside to `path + ".bak"`
and yields the default; any exception the handlers do not catch would pass
through as `raised`. -/
def load_json (r : ReadOutcome α) (default : α) : PyResult α × FsEffect :=
  match json_read r with
  | .ok v => (.ok v, .none)
  | .raised .fileNotFound => (.ok default, .none)
  | .raised .jsonDecode => (.ok default, .renamedToBak)
  | .raised e => (.raised e, .none)

/-! ## The message handler -/

/-- The fields of a Discord message (and its author) that `on_message`
can observe.  `authorIsAdmin` records whether the sender is the owner or a
guild administrator — the handler never reads it, which is the point of
claim C5. -/
structure Msg where
  authorIsBot : Bool
  authorIsAdmin : Bool
  inGuild : Bool
  channelId : ℕ
  content : Str

/-- What the handler does with a message: nothing, hand it to the prefix
command dispatcher (`bot.process_commands`), or send a reply text. -/
inductive MsgAction where
  | noAction
  | processCommands
  | reply (text : Str)
deriving DecidableEq

/-- The four fallback messages, verbatim. -/
def FALLBACK_MESSAGES : List Str :=
  [ "Hmm, I don’t have an answer for that yet. Could you try rephrasing?".toList,
    "I’m not sure about that — maybe check `/faq list` or ask a staff member.".toList,
    "That one’s new to me 👀 — want me to tell the team to add this question?".toList,
    "I couldn’t find anything on that, sorry! You can open a ticket or ask staff.".toList ]

/-- `random.choice(FALLBACK_MESSAGES)` with the randomness injected as an
index. -/
def fallbackChoice (rand : ℕ) : Str :=
  FALLBACK_MESSAGES.getD (rand % FALLBACK_MESSAGES.length) []

/-- The `on_message` event handler.  Bot authors are ignored; DMs are
ignored (note: without reaching `process_commands`); with no configured
channel, or outside the configured channels, the message goes to the
command dispatcher; otherwise the handler always replies — with the stored
answer when `best_faq_match` returned a key that is truthy (Python
`if key:` is false for the empty string), and with a random fallback
message otherwise. -/
def on_message (faqs : Store) (faqChannels : List ℕ) (threshold : ℚ)
    (rand : ℕ) (m : Msg) : MsgAction :=
  if m.authorIsBot = true then .noAction
  else if m.inGuild = false then .noAction
  else if faqChannels = [] then .processCommands
  else if m.channelId ∉ faqChannels then .processCommands
  else
    match best_faq_match faqs threshold m.content with
    | (some key, answer, _) =>
      if key ≠ [] then .reply (answer.getD []) else .reply (fallbackChoice rand)
    | (none, _, _) => .reply (fallbackChoice rand)

/-- The resolver outcome, stated per the amended claim C1: the returned
score is an upper bound of all key scores and is attained when the store is
non-empty (0 for the empty store); a key is returned exactly when that
maximum clears the threshold *and is strictly positive* (the `best_key is
not None` guard), and then it comes with its stored answer and the maximum
score; otherwise both result fields are `None`. -/
def ResolverContract (faqs : Store) (threshold : ℚ) (message : Str) : Prop :=
  (∀ kv ∈ faqs,
    scoreOf (normalize_text message) kv ≤ (best_faq_match faqs threshold message).2.2) ∧
  (faqs ≠ [] → ∃ kv ∈ faqs,
    scoreOf (normalize_text message) kv = (best_faq_match faqs threshold message).2.2) ∧
  (faqs = [] → best_faq_match faqs threshold message = (none, none, 0)) ∧
  ((threshold ≤ (best_faq_match faqs threshold message).2.2 ∧
      0 < (best_faq_match faqs threshold message).2.2) →
    ∃ kv ∈ faqs, (best_faq_match faqs threshold message).1 = some kv.1 ∧
      (best_faq_match faqs threshold message).2.1 = some kv.2 ∧
      scoreOf (normalize_text message) kv = (best_faq_match faqs threshold message).2.2) ∧
  (¬ (threshold ≤ (best_faq_match faqs threshold message).2.2 ∧
      0 < (best_faq_match faqs threshold message).2.2) →
    (best_faq_match faqs threshold message).1 = none ∧
      (best_faq_match faqs threshold message).2.1 = none)

-- Sanity checks against CPython's `difflib` on concrete inputs
-- (the match totals are decided in ℕ, the rational layer by `norm_num`).
example : similarity ['a', 'b'] ['b', 'a', 'c', 'b'] = 2 / 3 := by
  have h : matchesTotal ['a', 'b'] ['b', 'a', 'c', 'b'] = 2 := by decide
  rw [similarity, h]; norm_num

example : similarity ['b', 'a', 'c', 'b'] ['a', 'b'] = 1 / 3 := by
  have h : matchesTotal ['b', 'a', 'c', 'b'] ['a', 'b'] = 1 := by decide
  rw [similarity, h]; norm_num

example : similarity ['h', 'i'] ['h', 'i'] = 1 := by
  have h : matchesTotal ['h', 'i'] ['h', 'i'] = 2 := by decide
  rw [similarity, h]; norm_num

example : similarity ['a'] ['b'] = 0 := by
  have h : matchesTotal ['a'] ['b'] = 0 := by decide
  rw [similarity, h]; norm_num

example : similarity "abcdef".toList "azcedf".toList = 2 / 3 := by
  have h : matchesTotal "abcdef".toList "azcedf".toList = 4 := by decide
  rw [similarity, h]; norm_num

example : similarity "kitten".toList "sitting".toList = 8 / 13 := by
  have h : matchesTotal "kitten".toList "sitting".toList = 4 := by decide
  rw [similarity, h]; norm_num

example : similarity "xyab".toList "abxy".toList = 1 / 2 := by
  have h : matchesTotal "xyab".toList "abxy".toList = 2 := by decide
  rw [similarity, h]; norm_num

example : similarity [] ['x'] = 0 := by
  have h : matchesTotal [] ['x'] = 0 := by decide
  rw [similarity, h]; norm_num

example : similarity [] [] = 1 := by rw [similarity]; norm_num

example : normalize_text "  What ARE  your\tHours? ".toList
    = "what are your hours?".toList := by decide

/-! ## Lemmas about the similarity scorer -/

lemma backRun_self (a : Str) : ∀ i, i < a.length → backRun a a i i = i + 1 := by
  intro i
  induction i with
  | zero =>
    intro h
    have hx : a[0]? = some (a[0]) := List.getElem?_eq_getElem h
    simp [backRun, hx]
  | succ i ih =>
    intro h
    have hx : a[i + 1]? = some (a[i + 1]) := List.getElem?_eq_getElem h
    have hi : i < a.length := Nat.lt_of_succ_lt h
    simp [backRun, hx, ih hi]

lemma backRun_disjoint (a b : Str) (h : ∀ c ∈ a, c ∉ b) :
    ∀ i j, backRun a b i j = 0 := by
  intro i j
  have key : ∀ x y : Char, a[i]? = some x → b[j]? = some y → ¬ x = y := by
    intro x y hx hy hxy
    exact h x (List.getElem?_mem hx) (hxy ▸ List.getElem?_mem hy)
  cases i with
  | zero =>
    cases hx : a[0]? with
    | none => simp [backRun, hx]
    | some x =>
      cases hy : b[j]? with
      | none => simp [backRun, hx, hy]
      | some y => simp [backRun, hx, hy, key x y hx hy]
  | succ i =>
    cases hx : a[i + 1]? with
    | none => simp [backRun, hx]
    | some x =>
      cases hy : b[j]? with
      | none => simp [backRun, hx, hy]
      | some y => simp [backRun, hx, hy, key x y hx hy]

lemma runLen_le_imax (a b : Str) (alo blo i j : ℕ) :
    runLen a b alo blo i j ≤ i - alo + 1 :=
  le_trans (min_le_right _ _) (min_le_left _ _)

lemma runLen_le_jmax (a b : Str) (alo blo i j : ℕ) :
    runLen a b alo blo i j ≤ j - blo + 1 :=
  le_trans (min_le_right _ _) (min_le_right _ _)

lemma mem_candPairs {alo ahi blo bhi : ℕ} {p : ℕ × ℕ} :
    p ∈ candPairs alo ahi blo bhi ↔
      alo ≤ p.1 ∧ p.1 < ahi ∧ blo ≤ p.2 ∧ p.2 < bhi := by
  obtain ⟨i, j⟩ := p
  unfold candPairs
  simp only [List.mem_flatMap, List.mem_map, List.mem_range'_1, Prod.mk.injEq]
  constructor
  · rintro ⟨x, ⟨hx1, hx2⟩, y, ⟨hy1, hy2⟩, rfl, rfl⟩
    omega
  · rintro ⟨h1, h2, h3, h4⟩
    exact ⟨i, ⟨h1, by omega⟩, j, ⟨h3, by omega⟩, rfl, rfl⟩

lemma candPairs_eq_nil {alo ahi blo bhi : ℕ} (h : ahi ≤ alo ∨ bhi ≤ blo) :
    candPairs alo ahi blo bhi = [] := by
  refine List.eq_nil_iff_forall_not_mem.mpr fun p hp => ?_
  have hb := mem_candPairs.mp hp
  omega

lemma flmFold_le (a b : Str) (alo blo : ℕ) (l : List (ℕ × ℕ))
    (init : ℕ × ℕ × ℕ) :
    init.2.2 ≤ (l.foldl (flmStep a b alo blo) init).2.2 := by
  induction l generalizing init with
  | nil => simp
  | cons p t ih =>
    simp only [List.foldl_cons]
    refine le_trans ?_ (ih (flmStep a b alo blo init p))
    unfold flmStep
    dsimp only
    by_cases hc : init.2.2 < runLen a b alo blo p.1 p.2
    · simp only [if_pos hc]
      exact le_of_lt hc
    · simp only [if_neg hc]
      exact le_rfl

lemma flmFold_ub (a b : Str) (alo blo : ℕ) (l : List (ℕ × ℕ))
    (init : ℕ × ℕ × ℕ) :
    ∀ p ∈ l, runLen a b alo blo p.1 p.2 ≤ (l.foldl (flmStep a b alo blo) init).2.2 := by
  induction l generalizing init with
  | nil => simp
  | cons q t ih =>
    intro p hp
    simp only [List.foldl_cons]
    rcases List.mem_cons.mp hp with hpq | hpt
    · subst hpq
      refine le_trans ?_ (flmFold_le a b alo blo t (flmStep a b alo blo init p))
      unfold flmStep
      dsimp only
      by_cases hc : init.2.2 < runLen a b alo blo p.1 p.2
      · simp only [if_pos hc]
        exact le_rfl
      · simp only [if_neg hc]
        exact le_of_not_lt hc
    · exact ih (flmStep a b alo blo init q) p hpt

lemma flmFold_mem (a b : Str) (alo blo : ℕ) (l : List (ℕ × ℕ))
    (init : ℕ × ℕ × ℕ) :
    l.foldl (flmStep a b alo blo) init = init ∨
      ∃ p ∈ l, l.foldl (flmStep a b alo blo) init
        = (p.1, p.2, runLen a b alo blo p.1 p.2) := by
  induction l generalizing init with
  | nil => exact Or.inl rfl
  | cons q t ih =>
    simp only [List.foldl_cons]
    rcases ih (flmStep a b alo blo init q) with h | ⟨p, hp, hres⟩
    · rw [h]
      unfold flmStep
      dsimp only
      by_cases hc : init.2.2 < runLen a b alo blo q.1 q.2
      · exact Or.inr ⟨q, List.mem_cons_self q t, by simp only [if_pos hc]⟩
      · exact Or.inl (by simp only [if_neg hc])
    · exact Or.inr ⟨p, List.mem_cons_of_mem q hp, hres⟩

lemma findLongestMatch_bounds (a b : Str) (alo ahi blo bhi : ℕ)
    (h : (findLongestMatch a b alo ahi blo bhi).2.2 ≠ 0) :
    alo ≤ (findLongestMatch a b alo ahi blo bhi).1 ∧
      (findLongestMatch a b alo ahi blo bhi).1
          + (findLongestMatch a b alo ahi blo bhi).2.2 ≤ ahi ∧
      blo ≤ (findLongestMatch a b alo ahi blo bhi).2.1 ∧
      (findLongestMatch a b alo ahi blo bhi).2.1
          + (findLongestMatch a b alo ahi blo bhi).2.2 ≤ bhi := by
  unfold findLongestMatch at h ⊢
  by_cases h0 : (flmEnd a b alo ahi blo bhi).2.2 = 0
  · simp [h0] at h
  · simp only [if_neg h0] at h ⊢
    rcases flmFold_mem a b alo blo (candPairs alo ahi blo bhi) (alo, blo, 0)
      with hres | ⟨p, hp, hres⟩
    · exact absurd (by unfold flmEnd; rw [hres]) h0
    · have hb := mem_candPairs.mp hp
      have he : flmEnd a b alo ahi blo bhi = (p.1, p.2, runLen a b alo blo p.1 p.2) := by
        unfold flmEnd
        rw [hres]
      have h1 := runLen_le_imax a b alo blo p.1 p.2
      have h2 := runLen_le_jmax a b alo blo p.1 p.2
      rw [he] at h0 ⊢
      dsimp only at h0 ⊢
      omega

lemma matchesInF_empty (a b : Str) (fuel alo ahi blo bhi : ℕ)
    (h : ahi ≤ alo ∨ bhi ≤ blo) :
    matchesInF a b fuel alo ahi blo bhi = 0 := by
  cases fuel with
  | zero => rfl
  | succ n =>
    have hflm : findLongestMatch a b alo ahi blo bhi = (alo, blo, 0) := by
      unfold findLongestMatch flmEnd
      rw [candPairs_eq_nil h]
      rfl
    simp [matchesInF, hflm]

lemma flmEnd_self (a : Str) (h : a ≠ []) :
    flmEnd a a 0 a.length 0 a.length = (a.length - 1, a.length - 1, a.length) := by
  have hn1 : 1 ≤ a.length := List.length_pos.mpr h
  have hpmem : ((a.length - 1, a.length - 1) : ℕ × ℕ) ∈ candPairs 0 a.length 0 a.length :=
    mem_candPairs.mpr (by dsimp only; omega)
  have hrun : runLen a a 0 0 (a.length - 1) (a.length - 1) = a.length := by
    unfold runLen
    rw [backRun_self a (a.length - 1) (by omega)]
    omega
  have hub := flmFold_ub a a 0 0 (candPairs 0 a.length 0 a.length) (0, 0, 0)
    (a.length - 1, a.length - 1) hpmem
  rw [hrun] at hub
  rcases flmFold_mem a a 0 0 (candPairs 0 a.length 0 a.length) (0, 0, 0)
    with hres | ⟨p, hp, hres⟩
  · exfalso
    rw [hres] at hub
    dsimp only at hub
    omega
  · have hb := mem_candPairs.mp hp
    have hk1 := runLen_le_imax a a 0 0 p.1 p.2
    have hk2 := runLen_le_jmax a a 0 0 p.1 p.2
    rw [hres] at hub
    dsimp only at hub
    unfold flmEnd
    rw [hres]
    have hp1 : p.1 = a.length - 1 := by omega
    have hp2 : p.2 = a.length - 1 := by omega
    rw [hp1, hp2, hrun]

lemma matchesTotal_self (a : Str) (h : a ≠ []) : matchesTotal a a = a.length := by
  have hn1 : 1 ≤ a.length := List.length_pos.mpr h
  have hflm : findLongestMatch a a 0 a.length 0 a.length = (0, 0, a.length) := by
    unfold findLongestMatch
    rw [flmEnd_self a h]
    dsimp only
    rw [if_neg (by omega)]
    have h1 : a.length - 1 + 1 - a.length = 0 := by omega
    rw [h1]
  unfold matchesTotal
  obtain ⟨f, hf⟩ : ∃ f, a.length + a.length = f + 1 := ⟨a.length + a.length - 1, by omega⟩
  rw [hf]
  have hne : a.length ≠ 0 := by omega
  simp [matchesInF, hflm, hne,
    matchesInF_empty a a f 0 0 0 0 (Or.inl le_rfl),
    matchesInF_empty a a f a.length a.length a.length a.length (Or.inl le_rfl)]

lemma matchesTotal_disjoint (a b : Str) (h : ∀ c ∈ a, c ∉ b) :
    matchesTotal a b = 0 := by
  have hrl : ∀ p : ℕ × ℕ, runLen a b 0 0 p.1 p.2 = 0 := by
    intro p
    unfold runLen
    rw [backRun_disjoint a b h p.1 p.2]
    simp
  have hk : (flmEnd a b 0 a.length 0 b.length).2.2 = 0 := by
    rcases flmFold_mem a b 0 0 (candPairs 0 a.length 0 b.length) (0, 0, 0)
      with hres | ⟨p, hp, hres⟩
    · unfold flmEnd
      rw [hres]
    · unfold flmEnd
      rw [hres]
      exact hrl p
  have hflm : findLongestMatch a b 0 a.length 0 b.length = (0, 0, 0) := by
    unfold findLongestMatch
    rw [if_pos hk]
  unfold matchesTotal
  cases hfuel : a.length + b.length with
  | zero => rfl
  | succ f => simp [matchesInF, hflm]

/-- The scorer returns exactly 1.0 on identical non-empty strings. -/
lemma similarity_self (a : Str) (h : a ≠ []) : similarity a a = 1 := by
  have hn : a.length ≠ 0 := fun hz => h (List.length_eq_zero.mp hz)
  rw [similarity, matchesTotal_self a h, if_neg (by omega)]
  have h0 : (a.length : ℚ) ≠ 0 := Nat.cast_ne_zero.mpr hn
  field_simp
  ring

/-- The scorer returns exactly 0.0 on strings with no common characters,
as long as not both are empty. -/
lemma similarity_disjoint (a b : Str) (hT : a.length + b.length ≠ 0)
    (h : ∀ c ∈ a, c ∉ b) : similarity a b = 0 := by
  rw [similarity, matchesTotal_disjoint a b h, if_neg hT]
  norm_num

/-- Scores are never negative. -/
lemma similarity_nonneg (a b : Str) : 0 ≤ similarity a b := by
  rw [similarity]
  split
  · norm_num
  · positivity

/-! ## Store lemmas -/

lemma dictGet_of_mem (faqs : Store) (kv : Str × Str) (hnd : keysNodup faqs)
    (hm : kv ∈ faqs) : dictGet faqs kv.1 = some kv.2 := by
  induction faqs with
  | nil => cases hm
  | cons q t ih =>
    have hnd' := hnd
    unfold keysNodup at hnd'
    rw [List.map_cons, List.nodup_cons] at hnd'
    unfold dictGet
    rcases List.mem_cons.mp hm with hqkv | hm'
    · subst hqkv
      rw [List.find?_cons_of_pos _ (by simp)]
      rfl
    · have hq : ¬ (q.1 = kv.1) := by
        intro he
        exact hnd'.1 (he ▸ List.mem_map_of_mem Prod.fst hm')
      rw [List.find?_cons_of_neg _ (by simp [hq])]
      exact ih hnd'.2 hm'

lemma keysNodup_tail (q : Str × Str) (t : Store) (h : keysNodup (q :: t)) :
    keysNodup t := by
  unfold keysNodup at h ⊢
  rw [List.map_cons, List.nodup_cons] at h
  exact h.2

/-- `find?` gives the first element satisfying the predicate: the list splits
with every earlier element failing it. -/
lemma find?_split {α : Type} (p : α → Bool) (l : List α) (x : α)
    (h : l.find? p = some x) :
    ∃ l1 l2, l = l1 ++ x :: l2 ∧ p x = true ∧ ∀ y ∈ l1, ¬ p y = true := by
  induction l with
  | nil => cases h
  | cons q t ih =>
    by_cases hq : p q = true
    · rw [List.find?_cons_of_pos _ hq] at h
      injection h with h
      subst h
      exact ⟨[], t, rfl, hq, by simp⟩
    · rw [List.find?_cons_of_neg _ hq] at h
      obtain ⟨l1, l2, hsplit, hx, hl1⟩ := ih h
      refine ⟨q :: l1, l2, by rw [hsplit]; rfl, hx, ?_⟩
      intro y hy
      rcases List.mem_cons.mp hy with rfl | hy'
      · exact hq
      · exact hl1 y hy'

/-- Deleting a key that occurs exactly once removes exactly that entry. -/
lemma dictDel_split (l1 l2 : Store) (kv : Str × Str)
    (hnd : keysNodup (l1 ++ kv :: l2)) :
    dictDel (l1 ++ kv :: l2) kv.1 = l1 ++ l2 := by
  unfold keysNodup at hnd
  rw [List.map_append, List.map_cons, List.nodup_append] at hnd
  obtain ⟨h1, h2, hdisj⟩ := hnd
  have hb : kv.1 ∉ l2.map Prod.fst := (List.nodup_cons.mp h2).1
  have ha : kv.1 ∉ l1.map Prod.fst := fun hmem => hdisj hmem (List.mem_cons_self _ _)
  unfold dictDel
  rw [List.filter_append, List.filter_cons]
  simp only [decide_not]
  norm_num
  have hf1 : l1.filter (fun x => !decide (x.1 = kv.1)) = l1 := by
    rw [List.filter_eq_self]
    intro y hy
    simp only [Bool.not_eq_true', decide_eq_false_iff_not]
    intro he
    exact ha (he ▸ List.mem_map_of_mem Prod.fst hy)
  have hf2 : l2.filter (fun x => !decide (x.1 = kv.1)) = l2 := by
    rw [List.filter_eq_self]
    intro y hy
    simp only [Bool.not_eq_true', decide_eq_false_iff_not]
    intro he
    exact hb (he ▸ List.mem_map_of_mem Prod.fst hy)
  rw [hf1, hf2]

/-! ## The scan lemma: strict-improvement maximum search -/

/-- Characterization of the `best_faq_match` loop from any starting
accumulator: either no key beats the accumulator and it survives untouched,
or the result is the first key attaining the overall maximum — every
earlier key scores strictly below it, every later key at most it. -/
lemma faqScan_cases (msgNorm : Str) (faqs : Store) (b : Option Str × ℚ) :
    ((∀ kv ∈ faqs, scoreOf msgNorm kv ≤ b.2) ∧
      faqs.foldl (faqScanStep msgNorm) b = b) ∨
    (∃ l1 kv l2, faqs = l1 ++ kv :: l2 ∧
      faqs.foldl (faqScanStep msgNorm) b = (some kv.1, scoreOf msgNorm kv) ∧
      b.2 < scoreOf msgNorm kv ∧
      (∀ kv' ∈ l1, scoreOf msgNorm kv' < scoreOf msgNorm kv) ∧
      (∀ kv' ∈ l2, scoreOf msgNorm kv' ≤ scoreOf msgNorm kv)) := by
  induction faqs generalizing b with
  | nil => exact Or.inl ⟨by simp, rfl⟩
  | cons kv0 rest ih =>
    simp only [List.foldl_cons]
    by_cases hc : b.2 < scoreOf msgNorm kv0
    · have hstep : faqScanStep msgNorm b kv0 = (some kv0.1, scoreOf msgNorm kv0) := by
        unfold faqScanStep
        rw [if_pos hc]
      rw [hstep]
      rcases ih (some kv0.1, scoreOf msgNorm kv0) with ⟨hall, heq⟩ |
        ⟨l1, kv, l2, hsplit, heq, hlt, hl1, hl2⟩
      · refine Or.inr ⟨[], kv0, rest, rfl, heq, hc, by simp, ?_⟩
        intro kv' h'
        exact hall kv' h'
      · refine Or.inr ⟨kv0 :: l1, kv, l2, by rw [hsplit]; rfl, heq, ?_, ?_, hl2⟩
        · exact lt_trans hc hlt
        · intro kv' h'
          rcases List.mem_cons.mp h' with rfl | h''
          · exact hlt
          · exact hl1 kv' h''
    · have hstep : faqScanStep msgNorm b kv0 = b := by
        unfold faqScanStep
        rw [if_neg hc]
      rw [hstep]
      rcases ih b with ⟨hall, heq⟩ | ⟨l1, kv, l2, hsplit, heq, hlt, hl1, hl2⟩
      · refine Or.inl ⟨?_, heq⟩
        intro kv' h'
        rcases List.mem_cons.mp h' with rfl | h''
        · exact le_of_not_lt hc
        · exact hall kv' h''
      · refine Or.inr ⟨kv0 :: l1, kv, l2, by rw [hsplit]; rfl, heq, hlt, ?_, hl2⟩
        intro kv' h'
        rcases List.mem_cons.mp h' with rfl | h''
        · exact lt_of_le_of_lt (le_of_not_lt hc) hlt
        · exact hl1 kv' h''

/-! ## Characterization of `best_faq_match` -/

lemma scoreOf_nonneg (msgNorm : Str) (kv : Str × Str) : 0 ≤ scoreOf msgNorm kv :=
  similarity_nonneg _ _

lemma best_faq_match_of_scan_none (faqs : Store) (threshold : ℚ) (msg : Str)
    (s : ℚ) (h : faqScan (normalize_text msg) faqs = (none, s)) :
    best_faq_match faqs threshold msg = (none, none, s) := by
  unfold best_faq_match
  rw [h]

lemma best_faq_match_of_scan_some (faqs : Store) (threshold : ℚ) (msg k : Str)
    (s : ℚ) (h : faqScan (normalize_text msg) faqs = (some k, s)) :
    best_faq_match faqs threshold msg
      = if threshold ≤ s then (some k, dictGet faqs k, s) else (none, none, s) := by
  unfold best_faq_match
  rw [h]

/-- C1 (amended): the match resolver scans all stored keys; its returned
score is the maximum key score (0 on an empty store); it returns the
winning key with its stored answer exactly when the maximum clears the
threshold and is strictly positive, and no match otherwise — never an
error. -/
theorem best_faq_match_contract (faqs : Store) (threshold : ℚ) (msg : Str)
    (hnd : keysNodup faqs) : ResolverContract faqs threshold msg := by
  unfold ResolverContract
  rcases faqScan_cases (normalize_text msg) faqs (none, 0) with
    ⟨hall, heq⟩ | ⟨l1, kv, l2, hsplit, heq, hpos, hl1, hl2⟩
  · have hscan : faqScan (normalize_text msg) faqs = (none, 0) := heq
    rw [best_faq_match_of_scan_none faqs threshold msg 0 hscan]
    dsimp only
    refine ⟨fun kv hm => hall kv hm, ?_, fun _ => rfl, ?_, fun _ => ⟨rfl, rfl⟩⟩
    · intro hne
      cases faqs with
      | nil => exact absurd rfl hne
      | cons q t =>
        exact ⟨q, List.mem_cons_self q t,
          le_antisymm (hall q (List.mem_cons_self q t)) (scoreOf_nonneg _ q)⟩
    · rintro ⟨-, hzero⟩
      exact absurd hzero (lt_irrefl 0)
  · have hscan : faqScan (normalize_text msg) faqs
      = (some kv.1, scoreOf (normalize_text msg) kv) := heq
    have hkv_mem : kv ∈ faqs := by
      rw [hsplit]
      exact List.mem_append.mpr (Or.inr (List.mem_cons_self kv l2))
    have hub : ∀ kv' ∈ faqs,
        scoreOf (normalize_text msg) kv' ≤ scoreOf (normalize_text msg) kv := by
      intro kv' hm'
      rw [hsplit] at hm'
      rcases List.mem_append.mp hm' with hm' | hm'
      · exact le_of_lt (hl1 kv' hm')
      · rcases List.mem_cons.mp hm' with rfl | hm'
        · exact le_rfl
        · exact hl2 kv' hm'
    have hne : faqs ≠ [] := by
      rw [hsplit]
      simp
    have hzero : (0 : ℚ) < scoreOf (normalize_text msg) kv := hpos
    have hbfm := best_faq_match_of_scan_some faqs threshold msg kv.1
      (scoreOf (normalize_text msg) kv) hscan
    have hget : dictGet faqs kv.1 = some kv.2 := dictGet_of_mem faqs kv hnd hkv_mem
    by_cases hth : threshold ≤ scoreOf (normalize_text msg) kv
    · rw [if_pos hth, hget] at hbfm
      rw [hbfm]
      dsimp only
      refine ⟨hub, fun _ => ⟨kv, hkv_mem, rfl⟩, fun he => absurd he hne, ?_, ?_⟩
      · intro _
        exact ⟨kv, hkv_mem, rfl, rfl, rfl⟩
      · intro hn
        exact absurd ⟨hth, hzero⟩ hn
    · rw [if_neg hth] at hbfm
      rw [hbfm]
      dsimp only
      refine ⟨hub, fun _ => ⟨kv, hkv_mem, rfl⟩, fun he => absurd he hne, ?_,
        fun _ => ⟨rfl, rfl⟩⟩
      rintro ⟨hth', -⟩
      exact absurd hth' hth

/-- Witness for `best_faq_match_contract` at a concrete store and query. -/
theorem best_faq_match_contract_witness :
    keysNodup [(['h', 'i'], ['y', 'o'])] ∧
      ResolverContract [(['h', 'i'], ['y', 'o'])] (1 / 2) ['h', 'i'] :=
  ⟨by decide, best_faq_match_contract _ _ _ (by decide)⟩

/-- C1 counterexample: with store `{"b": "B"}`, threshold `0.0` and input
`"a"`, the maximum similarity score is `0.0 >= threshold` and the store is
non-empty, yet the resolver returns no match — refuting the claim that a
non-empty store whose maximum score reaches the threshold always yields the
winning key. -/
theorem best_faq_match_zero_score_counterexample :
    (([(['b'], ['B'])] : Store) ≠ []) ∧
      (∀ kv ∈ ([(['b'], ['B'])] : Store), scoreOf (normalize_text ['a']) kv = 0) ∧
      ((0 : ℚ) ≤ 0) ∧
      best_faq_match [(['b'], ['B'])] 0 ['a'] = (none, none, 0) := by
  have hsim : scoreOf (normalize_text ['a']) ((['b'], ['B']) : Str × Str) = 0 := by
    unfold scoreOf
    have hn1 : normalize_text ['a'] = ['a'] := by decide
    have hn2 : normalize_text ['b'] = ['b'] := by decide
    rw [hn1, hn2]
    have h : matchesTotal ['a'] ['b'] = 0 := by decide
    rw [similarity, h]
    norm_num
  have hscan : faqScan (normalize_text ['a']) [(['b'], ['B'])] = (none, 0) := by
    unfold faqScan
    rw [List.foldl_cons, List.foldl_nil]
    unfold faqScanStep
    rw [hsim]
    norm_num
  refine ⟨by simp, ?_, le_refl 0, best_faq_match_of_scan_none _ 0 _ 0 hscan⟩
  intro kv hm
  rw [List.mem_singleton] at hm
  subst hm
  exact hsim

/-- C3: whenever the resolver returns a key, the store splits around the
returned entry so that every earlier key scores strictly below it and every
later key at most it: the maximum is tracked with strict greater-than, so
the first-inserted key of maximal score wins and later equal scores never
replace it. -/
theorem best_faq_match_tiebreak (faqs : Store) (threshold : ℚ) (msg k : Str)
    (h : (best_faq_match faqs threshold msg).1 = some k) :
    ∃ l1 kv l2, faqs = l1 ++ kv :: l2 ∧ kv.1 = k ∧
      (∀ kv' ∈ l1, scoreOf (normalize_text msg) kv' < scoreOf (normalize_text msg) kv) ∧
      (∀ kv' ∈ l2, scoreOf (normalize_text msg) kv' ≤ scoreOf (normalize_text msg) kv) ∧
      scoreOf (normalize_text msg) kv = (best_faq_match faqs threshold msg).2.2 := by
  rcases faqScan_cases (normalize_text msg) faqs (none, 0) with
    ⟨hall, heq⟩ | ⟨l1, kv, l2, hsplit, heq, hpos, hl1, hl2⟩
  · have hscan : faqScan (normalize_text msg) faqs = (none, 0) := heq
    rw [best_faq_match_of_scan_none faqs threshold msg 0 hscan] at h
    cases h
  · have hscan : faqScan (normalize_text msg) faqs
      = (some kv.1, scoreOf (normalize_text msg) kv) := heq
    have hbfm := best_faq_match_of_scan_some faqs threshold msg kv.1
      (scoreOf (normalize_text msg) kv) hscan
    by_cases hth : threshold ≤ scoreOf (normalize_text msg) kv
    · rw [if_pos hth] at hbfm
      rw [hbfm] at h ⊢
      dsimp only at h ⊢
      refine ⟨l1, kv, l2, hsplit, ?_, hl1, hl2, rfl⟩
      injection h
    · rw [if_neg hth] at hbfm
      rw [hbfm] at h
      cases h

/-- Witness for `best_faq_match_tiebreak`: two stored keys both normalize
to the query and both score 1.0; the resolver returns the first-inserted
one. -/
theorem best_faq_match_tiebreak_witness :
    (best_faq_match [(['H', 'i'], ['A']), (['h', 'i'], ['B'])] (1 / 2)
        ['h', 'i']).1 = some ['H', 'i'] ∧
      ∃ l1 kv l2,
        ([(['H', 'i'], ['A']), (['h', 'i'], ['B'])] : Store) = l1 ++ kv :: l2 ∧
        kv.1 = ['H', 'i'] ∧
        (∀ kv' ∈ l1, scoreOf (normalize_text ['h', 'i']) kv'
          < scoreOf (normalize_text ['h', 'i']) kv) ∧
        (∀ kv' ∈ l2, scoreOf (normalize_text ['h', 'i']) kv'
          ≤ scoreOf (normalize_text ['h', 'i']) kv) ∧
        scoreOf (normalize_text ['h', 'i']) kv
          = (best_faq_match [(['H', 'i'], ['A']), (['h', 'i'], ['B'])] (1 / 2)
              ['h', 'i']).2.2 := by
  have hs1 : scoreOf (normalize_text ['h', 'i']) ((['H', 'i'], ['A']) : Str × Str) = 1 := by
    unfold scoreOf
    have hn : normalize_text ['h', 'i'] = ['h', 'i'] := by decide
    have hn2 : normalize_text ['H', 'i'] = ['h', 'i'] := by decide
    rw [hn, hn2]
    exact similarity_self ['h', 'i'] (by simp)
  have hs2 : scoreOf (normalize_text ['h', 'i']) ((['h', 'i'], ['B']) : Str × Str) = 1 := by
    unfold scoreOf
    have hn : normalize_text ['h', 'i'] = ['h', 'i'] := by decide
    rw [hn]
    exact similarity_self ['h', 'i'] (by simp)
  have hscan : faqScan (normalize_text ['h', 'i'])
      [(['H', 'i'], ['A']), (['h', 'i'], ['B'])] = (some ['H', 'i'], 1) := by
    unfold faqScan
    rw [List.foldl_cons, List.foldl_cons, List.foldl_nil]
    unfold faqScanStep
    rw [hs1, hs2]
    norm_num
  have hbfm := best_faq_match_of_scan_some
    [(['H', 'i'], ['A']), (['h', 'i'], ['B'])] (1 / 2) ['h', 'i'] ['H', 'i'] 1 hscan
  rw [if_pos (by norm_num : (1 : ℚ) / 2 ≤ 1)] at hbfm
  have h1 : (best_faq_match [(['H', 'i'], ['A']), (['h', 'i'], ['B'])] (1 / 2)
      ['h', 'i']).1 = some ['H', 'i'] := by
    rw [hbfm]
  exact ⟨h1, best_faq_match_tiebreak _ _ _ _ h1⟩

/-! ## C2: the duplicate check of the add commands -/

/-- C2 (code bug): with `{"Hi There": "A"}` stored, the slash command
`faq_add("Hi There", "B")` does not return AlreadyExists and silently
overwrites the stored answer — the source computes
`key = normalize_text(question)` and tests `key in faqs` instead of
`question in faqs` — while its prefix-command twin, which does test
`question in faqs`, rejects the very same call and leaves the store
unchanged. -/
theorem faq_add_exact_duplicate_bug :
    (faq_add true [("Hi There".toList, ['A'])] "Hi There".toList ['B']).1
        ≠ AddResult.alreadyExists ∧
      (faq_add true [("Hi There".toList, ['A'])] "Hi There".toList ['B']).2
        = [("Hi There".toList, ['B'])] ∧
      cmd_faq_add true [("Hi There".toList, ['A'])] "Hi There".toList ['B']
        = (AddResult.alreadyExists, [("Hi There".toList, ['A'])]) := by
  refine ⟨?_, ?_, ?_⟩ <;> decide

/-! ## C4: removal semantics -/

/-- C4: `faq_remove` first tries the exact key: on a hit it deletes exactly
that entry and reports the argument itself.  On a miss it deletes the first
entry in insertion order whose normalized key equals the normalized
argument and reports that entry's original key.  If neither applies it
reports a miss and the store is untouched. -/
theorem faq_remove_spec (faqs : Store) (q : Str) (hnd : keysNodup faqs) :
    (hasKey faqs q = true →
      ∃ l1 a l2, faqs = l1 ++ (q, a) :: l2 ∧
        faq_remove true faqs q = (.removed q, l1 ++ l2)) ∧
    (hasKey faqs q = false →
      (∃ kv ∈ faqs, normalize_text kv.1 = normalize_text q) →
      ∃ l1 kv l2, faqs = l1 ++ kv :: l2 ∧
        normalize_text kv.1 = normalize_text q ∧
        (∀ kv' ∈ l1, normalize_text kv'.1 ≠ normalize_text q) ∧
        faq_remove true faqs q = (.removed kv.1, l1 ++ l2)) ∧
    (hasKey faqs q = false →
      (∀ kv ∈ faqs, normalize_text kv.1 ≠ normalize_text q) →
      faq_remove true faqs q = (.notFound, faqs)) := by
  refine ⟨?_, ?_, ?_⟩
  · intro hk
    obtain ⟨kv, hm, hq⟩ : ∃ kv ∈ faqs, kv.1 = q := by
      unfold hasKey at hk
      rcases List.any_eq_true.mp hk with ⟨kv, hm, hq⟩
      exact ⟨kv, hm, by simpa using hq⟩
    obtain ⟨l1, l2, hsplit⟩ := List.append_of_mem hm
    have hkv : kv = (q, kv.2) := by
      rw [← hq]
    refine ⟨l1, kv.2, l2, by rw [← hkv]; exact hsplit, ?_⟩
    unfold faq_remove
    rw [if_neg (by simp), if_pos hk, ← hq]
    rw [hsplit, dictDel_split l1 l2 kv (hsplit ▸ hnd)]
  · intro hk hex
    have hfind : faqs.find?
        (fun kv => normalize_text kv.1 = normalize_text q) ≠ none := by
      rw [Ne, List.find?_eq_none]
      push_neg
      obtain ⟨kv, hm, heq⟩ := hex
      exact ⟨kv, hm, by simpa using heq⟩
    cases hf : faqs.find? (fun kv => normalize_text kv.1 = normalize_text q) with
    | none => exact absurd hf hfind
    | some kv =>
      obtain ⟨l1, l2, hsplit, hp, hl1⟩ := find?_split _ faqs kv hf
      refine ⟨l1, kv, l2, hsplit, by simpa using hp, ?_, ?_⟩
      · intro kv' h'
        have := hl1 kv' h'
        simpa using this
      · unfold faq_remove
        rw [if_neg (by simp), if_neg (by simp [hk]), hf]
        change (RemoveResult.removed kv.1, dictDel faqs kv.1)
          = (RemoveResult.removed kv.1, l1 ++ l2)
        rw [hsplit, dictDel_split l1 l2 kv (hsplit ▸ hnd)]
  · intro hk hall
    have hfind : faqs.find?
        (fun kv => normalize_text kv.1 = normalize_text q) = none := by
      rw [List.find?_eq_none]
      intro kv hm
      simpa using hall kv hm
    unfold faq_remove
    rw [if_neg (by simp), if_neg (by simp [hk]), hfind]

/-- Witness for `faq_remove_spec` at the spec's own example: key
`"Hi There"` stored, `remove("hi there")` requested. -/
theorem faq_remove_spec_witness :
    keysNodup [("Hi There".toList, ['A'])] ∧
      ((hasKey [("Hi There".toList, ['A'])] "hi there".toList = true →
        ∃ l1 a l2, ([("Hi There".toList, ['A'])] : Store)
            = l1 ++ ("hi there".toList, a) :: l2 ∧
          faq_remove true [("Hi There".toList, ['A'])] "hi there".toList
            = (.removed "hi there".toList, l1 ++ l2)) ∧
      (hasKey [("Hi There".toList, ['A'])] "hi there".toList = false →
        (∃ kv ∈ ([("Hi There".toList, ['A'])] : Store),
          normalize_text kv.1 = normalize_text "hi there".toList) →
        ∃ l1 kv l2, ([("Hi There".toList, ['A'])] : Store) = l1 ++ kv :: l2 ∧
          normalize_text kv.1 = normalize_text "hi there".toList ∧
          (∀ kv' ∈ l1, normalize_text kv'.1 ≠ normalize_text "hi there".toList) ∧
          faq_remove true [("Hi There".toList, ['A'])] "hi there".toList
            = (.removed kv.1, l1 ++ l2)) ∧
      (hasKey [("Hi There".toList, ['A'])] "hi there".toList = false →
        (∀ kv ∈ ([("Hi There".toList, ['A'])] : Store),
          normalize_text kv.1 ≠ normalize_text "hi there".toList) →
        faq_remove true [("Hi There".toList, ['A'])] "hi there".toList
          = (.notFound, [("Hi There".toList, ['A'])]))) :=
  ⟨by decide, faq_remove_spec _ _ (by decide)⟩

-- The spec's normalized-fallback removal example, evaluated concretely:
-- removing "hi there" deletes the differently-cased key "Hi There".
example : faq_remove true [("Hi There".toList, ['A'])] "hi there".toList
    = (.removed "Hi There".toList, []) := by decide

/-! ## C8: threshold validation -/

/-- C8: `set_threshold` rejects every out-of-range value with a validation
error and leaves the stored threshold unchanged; a privileged caller
setting an in-range value stores exactly that value; an unprivileged
caller changes nothing. -/
theorem set_threshold_spec (thr v : ℚ) :
    ((v < 0 ∨ 1 < v) → set_threshold true thr v = (.validationError, thr)) ∧
    ((0 ≤ v ∧ v ≤ 1) → set_threshold true thr v = (.ok, v)) ∧
    set_threshold false thr v = (.noPermission, thr) := by
  refine ⟨?_, ?_, ?_⟩
  · intro h
    unfold set_threshold
    rw [if_neg (by simp), if_pos]
    rcases h with h | h
    · rintro ⟨h0, -⟩
      linarith
    · rintro ⟨-, h1⟩
      linarith
  · intro h
    unfold set_threshold
    rw [if_neg (by simp), if_neg (not_not_intro h)]
  · unfold set_threshold
    rw [if_pos rfl]

/-- Witness for `set_threshold_spec`: `setThreshold(1.5)` and
`setThreshold(-0.1)` both fail leaving 0.6 stored; `setThreshold(0.7)`
succeeds. -/
theorem set_threshold_spec_witness :
    ((3 / 2 : ℚ) < 0 ∨ 1 < (3 / 2 : ℚ)) ∧
      set_threshold true (6 / 10) (3 / 2) = (.validationError, 6 / 10) ∧
      ((-1 / 10 : ℚ) < 0 ∨ 1 < (-1 / 10 : ℚ)) ∧
      set_threshold true (6 / 10) (-1 / 10) = (.validationError, 6 / 10) ∧
      (0 ≤ (7 / 10 : ℚ) ∧ (7 / 10 : ℚ) ≤ 1) ∧
      set_threshold true (6 / 10) (7 / 10) = (.ok, 7 / 10) := by
  refine ⟨by norm_num, ?_, by norm_num, ?_, by norm_num, ?_⟩
  · exact (set_threshold_spec (6 / 10) (3 / 2)).1 (by norm_num)
  · exact (set_threshold_spec (6 / 10) (-1 / 10)).1 (by norm_num)
  · exact (set_threshold_spec (6 / 10) (7 / 10)).2.1 (by norm_num)

/-! ## C9: load-time corruption handling -/

/-- C9: `load_json` never raises: a well-formed document loads its value
with no side effect; a missing file yields the supplied default; a
malformed file yields the default after requesting that the original be
renamed to the `.bak` backup name (preserved, not deleted). -/
theorem load_json_spec (α : Type) (r : ReadOutcome α) (d : α) :
    (∃ v eff, load_json r d = (.ok v, eff)) ∧
    (r = .malformed → load_json r d = (.ok d, .renamedToBak)) ∧
    (r = .missing → load_json r d = (.ok d, .none)) ∧
    (∀ v, r = .ok v → load_json r d = (.ok v, .none)) := by
  cases r with
  | missing =>
    refine ⟨⟨d, .none, rfl⟩, ?_, fun _ => rfl, ?_⟩
    · rintro ⟨⟩
    · rintro v ⟨⟩
  | malformed =>
    refine ⟨⟨d, .renamedToBak, rfl⟩, fun _ => rfl, ?_, ?_⟩
    · rintro ⟨⟩
    · rintro v ⟨⟩
  | ok w =>
    refine ⟨⟨w, .none, rfl⟩, ?_, ?_, ?_⟩
    · rintro ⟨⟩
    · rintro ⟨⟩
    · rintro v h
      injection h with h
      rw [h]
      rfl

/-- Witness for `load_json_spec` on a malformed and on a missing read. -/
theorem load_json_spec_witness :
    load_json (ReadOutcome.malformed : ReadOutcome ℕ) 7 = (.ok 7, .renamedToBak) ∧
      load_json (ReadOutcome.missing : ReadOutcome ℕ) 7 = (.ok 7, .none) :=
  ⟨(load_json_spec ℕ .malformed 7).2.1 rfl, (load_json_spec ℕ .missing 7).2.2.1 rfl⟩

/-! ## C5 / C10: the message handler -/

lemma fallbackChoice_mem (rand : ℕ) : fallbackChoice rand ∈ FALLBACK_MESSAGES := by
  unfold fallbackChoice
  have h : rand % FALLBACK_MESSAGES.length < FALLBACK_MESSAGES.length :=
    Nat.mod_lt _ (by simp [FALLBACK_MESSAGES])
  rw [List.getD_eq_getElem?_getD, List.getElem?_eq_getElem h]
  simp

lemma dictGet_isSome_of_mem (faqs : Store) (kv : Str × Str) (h : kv ∈ faqs) :
    ∃ kv2 ∈ faqs, dictGet faqs kv.1 = some kv2.2 := by
  unfold dictGet
  cases hf : faqs.find? (fun kv2 => kv2.1 = kv.1) with
  | none =>
    exfalso
    have := List.find?_eq_none.mp hf kv h
    simp at this
  | some kv2 =>
    exact ⟨kv2, List.mem_of_find?_eq_some hf, rfl⟩

/-- When the resolver reports a match, the answer field is the stored
answer of some entry of the store. -/
lemma best_faq_match_answer_mem (faqs : Store) (threshold : ℚ) (msg k : Str)
    (a : Option Str) (s : ℚ)
    (h : best_faq_match faqs threshold msg = (some k, a, s)) :
    ∃ kv ∈ faqs, a = some kv.2 := by
  rcases faqScan_cases (normalize_text msg) faqs (none, 0) with
    ⟨hall, heq⟩ | ⟨l1, kv, l2, hsplit, heq, hpos, hl1, hl2⟩
  · rw [best_faq_match_of_scan_none faqs threshold msg 0 heq] at h
    simp at h
  · have hbfm := best_faq_match_of_scan_some faqs threshold msg kv.1
      (scoreOf (normalize_text msg) kv) heq
    by_cases hth : threshold ≤ scoreOf (normalize_text msg) kv
    · rw [if_pos hth] at hbfm
      rw [hbfm] at h
      have hmem : kv ∈ faqs := by
        rw [hsplit]
        exact List.mem_append.mpr (Or.inr (List.mem_cons_self kv l2))
      have ha : dictGet faqs kv.1 = a := congrArg (fun t => t.2.1) h
      obtain ⟨kv2, hm2, hg⟩ := dictGet_isSome_of_mem faqs kv hmem
      exact ⟨kv2, hm2, by rw [← ha, hg]⟩
    · rw [if_neg hth] at hbfm
      rw [hbfm] at h
      simp at h

/-- Inside a configured channel (non-bot, guild message), `on_message` is
exactly the reply dispatch on the resolver outcome. -/
lemma on_message_in_channel_reply (faqs : Store) (channels : List ℕ)
    (threshold : ℚ) (rand : ℕ) (m : Msg) (h1 : m.authorIsBot = false)
    (h2 : m.inGuild = true) (h3 : channels ≠ []) (h4 : m.channelId ∈ channels) :
    on_message faqs channels threshold rand m
      = (match best_faq_match faqs threshold m.content with
        | (some key, answer, _) =>
          if key ≠ [] then MsgAction.reply (answer.getD [])
          else MsgAction.reply (fallbackChoice rand)
        | (none, _, _) => MsgAction.reply (fallbackChoice rand)) := by
  unfold on_message
  rw [if_neg (by simp [h1]), if_neg (by simp [h2]), if_neg h3,
    if_neg (by simp [h4])]

/-- C5 (amended): auto-reply is decided only by author-is-bot, guild
presence and the channel allowlist — the sender's privilege and any
command prefix are never consulted.  On a configured channel the handler
replies with the raw stored answer when the resolver returns a (non-empty)
key, and with one of the four fixed fallback messages otherwise; bot
messages and DMs get nothing; outside the allowlist (or with no channel
configured) the message goes to the command dispatcher instead. -/
theorem on_message_autoreply_contract (faqs : Store) (channels : List ℕ)
    (threshold : ℚ) (rand : ℕ) (m : Msg) :
    (m.authorIsBot = true → on_message faqs channels threshold rand m = .noAction) ∧
    (m.authorIsBot = false → m.inGuild = false →
      on_message faqs channels threshold rand m = .noAction) ∧
    (m.authorIsBot = false → m.inGuild = true → channels = [] →
      on_message faqs channels threshold rand m = .processCommands) ∧
    (m.authorIsBot = false → m.inGuild = true → channels ≠ [] →
      m.channelId ∉ channels →
      on_message faqs channels threshold rand m = .processCommands) ∧
    (m.authorIsBot = false → m.inGuild = true → channels ≠ [] →
      m.channelId ∈ channels →
      (∀ k a s, best_faq_match faqs threshold m.content = (some k, some a, s) →
        k ≠ [] → on_message faqs channels threshold rand m = .reply a) ∧
      ((best_faq_match faqs threshold m.content).1 = none →
        on_message faqs channels threshold rand m = .reply (fallbackChoice rand)) ∧
      fallbackChoice rand ∈ FALLBACK_MESSAGES) := by
  refine ⟨?_, ?_, ?_, ?_, ?_⟩
  · intro h
    unfold on_message
    rw [if_pos h]
  · intro h1 h2
    unfold on_message
    rw [if_neg (by simp [h1]), if_pos h2]
  · intro h1 h2 h3
    unfold on_message
    rw [if_neg (by simp [h1]), if_neg (by simp [h2]), if_pos h3]
  · intro h1 h2 h3 h4
    unfold on_message
    rw [if_neg (by simp [h1]), if_neg (by simp [h2]), if_neg h3, if_pos h4]
  · intro h1 h2 h3 h4
    have hr := on_message_in_channel_reply faqs channels threshold rand m h1 h2 h3 h4
    refine ⟨?_, ?_, fallbackChoice_mem rand⟩
    · intro k a s hbfm hk
      rw [hr, hbfm]
      simp [hk]
    · intro hnone
      rcases hbe : best_faq_match faqs threshold m.content with ⟨kopt, aopt, s⟩
      rw [hbe] at hnone
      dsimp only at hnone
      subst hnone
      rw [hr, hbe]

/-- Witness for `on_message_autoreply_contract`: with no configured
channel, a plain guild message is handed to the command dispatcher. -/
theorem on_message_autoreply_contract_witness :
    on_message ([] : Store) ([] : List ℕ) (6 / 10) 0
      (Msg.mk false false true 5 []) = .processCommands :=
  (on_message_autoreply_contract [] [] (6 / 10) 0
    (Msg.mk false false true 5 [])).2.2.1 rfl rfl rfl

/-- C5 counterexample: a privileged (admin) sender's message on a
configured channel does receive an auto-reply — the handler never checks
privilege — refuting "for a message from a privileged sender, no
auto-reply is emitted". -/
theorem on_message_privileged_counterexample :
    (Msg.mk false true true 5 ['h', 'i']).authorIsAdmin = true ∧
      on_message [(['h', 'i'], ['y', 'o'])] [5] (6 / 10) 0
        (Msg.mk false true true 5 ['h', 'i']) = .reply ['y', 'o'] := by
  refine ⟨rfl, ?_⟩
  have hs : scoreOf (normalize_text ['h', 'i']) ((['h', 'i'], ['y', 'o']) : Str × Str) = 1 := by
    unfold scoreOf
    have hn : normalize_text ['h', 'i'] = ['h', 'i'] := by decide
    rw [hn]
    exact similarity_self ['h', 'i'] (by simp)
  have hscan : faqScan (normalize_text ['h', 'i']) [(['h', 'i'], ['y', 'o'])]
      = (some ['h', 'i'], 1) := by
    unfold faqScan
    rw [List.foldl_cons, List.foldl_nil]
    unfold faqScanStep
    rw [hs]
    norm_num
  have hbfm : best_faq_match [(['h', 'i'], ['y', 'o'])] (6 / 10) ['h', 'i']
      = (some ['h', 'i'], some ['y', 'o'], 1) := by
    rw [best_faq_match_of_scan_some _ _ _ _ _ hscan,
      if_pos (by norm_num : (6 : ℚ) / 10 ≤ 1)]
    have hget : dictGet [(['h', 'i'], ['y', 'o'])] ['h', 'i'] = some ['y', 'o'] := by
      decide
    rw [hget]
  have hr := on_message_in_channel_reply [(['h', 'i'], ['y', 'o'])] [5] (6 / 10) 0
    (Msg.mk false true true 5 ['h', 'i']) rfl rfl (by simp) (by simp)
  rw [hr]
  simp [hbfm]

/-- C10: on a configured channel every non-bot guild message gets a reply
(a stored answer or a fallback message) and is never handed to the prefix
command dispatcher; conversely the dispatcher only ever runs for non-bot
guild messages outside the configured channels or with no channel
configured.  So a prefix command typed in a configured channel is never
executed. -/
theorem on_message_channel_exclusivity (faqs : Store) (channels : List ℕ)
    (threshold : ℚ) (rand : ℕ) (m : Msg) :
    (m.authorIsBot = false → m.inGuild = true → channels ≠ [] →
      m.channelId ∈ channels →
      (∃ t, on_message faqs channels threshold rand m = .reply t ∧
        ((∃ kv ∈ faqs, t = kv.2) ∨ t ∈ FALLBACK_MESSAGES)) ∧
      on_message faqs channels threshold rand m ≠ .processCommands) ∧
    (on_message faqs channels threshold rand m = .processCommands →
      m.authorIsBot = false ∧ m.inGuild = true ∧
        (channels = [] ∨ m.channelId ∉ channels)) := by
  constructor
  · intro h1 h2 h3 h4
    have hr := on_message_in_channel_reply faqs channels threshold rand m h1 h2 h3 h4
    rcases hbe : best_faq_match faqs threshold m.content with ⟨kopt, aopt, s⟩
    cases kopt with
    | none =>
      rw [hr, hbe]
      exact ⟨⟨fallbackChoice rand, rfl, Or.inr (fallbackChoice_mem rand)⟩,
        by rintro ⟨⟩⟩
    | some k =>
      by_cases hk : k = []
      · rw [hr, hbe]
        subst hk
        refine ⟨⟨fallbackChoice rand, by simp, Or.inr (fallbackChoice_mem rand)⟩, ?_⟩
        simp
      · obtain ⟨kv2, hm2, ha⟩ :=
          best_faq_match_answer_mem faqs threshold m.content k aopt s hbe
        rw [hr, hbe]
        subst ha
        refine ⟨⟨kv2.2, by simp [hk], Or.inl ⟨kv2, hm2, rfl⟩⟩, ?_⟩
        simp [hk]
  · intro h
    by_cases h1 : m.authorIsBot = true
    · unfold on_message at h
      rw [if_pos h1] at h
      cases h
    · have h1f : m.authorIsBot = false := by
        revert h1
        cases m.authorIsBot <;> simp
      by_cases h2 : m.inGuild = false
      · unfold on_message at h
        rw [if_neg h1, if_pos h2] at h
        cases h
      · have h2t : m.inGuild = true := by
          revert h2
          cases m.inGuild <;> simp
        by_cases h3 : channels = []
        · exact ⟨h1f, h2t, Or.inl h3⟩
        · by_cases h4 : m.channelId ∉ channels
          · exact ⟨h1f, h2t, Or.inr h4⟩
          · exfalso
            have h4m : m.channelId ∈ channels := not_not.mp h4
            have hr := on_message_in_channel_reply faqs channels threshold rand m
              h1f h2t h3 h4m
            rw [hr] at h
            rcases hbe : best_faq_match faqs threshold m.content with ⟨kopt, aopt, s⟩
            rw [hbe] at h
            cases kopt with
            | none => simp at h
            | some k =>
              by_cases hk : k = [] <;> simp [hk] at h

/-- Witness for `on_message_channel_exclusivity`: a non-bot guild message
on the unique configured channel, empty store — the reply is a fallback
message and command processing is skipped. -/
theorem on_message_channel_exclusivity_witness :
    (∃ t, on_message ([] : Store) [5] (6 / 10) 0 (Msg.mk false false true 5 [])
        = .reply t ∧
      ((∃ kv ∈ ([] : Store), t = kv.2) ∨ t ∈ FALLBACK_MESSAGES)) ∧
    on_message ([] : Store) [5] (6 / 10) 0 (Msg.mk false false true 5 [])
      ≠ .processCommands :=
  (on_message_channel_exclusivity [] [5] (6 / 10) 0
    (Msg.mk false false true 5 [])).1 rfl rfl (by simp) (by simp)

/-! ## C6 / C7: similarity scorer properties -/

/-- C6 counterexample: the scorer is not symmetric —
`ratio("ab", "bacb") = 2/3` while `ratio("bacb", "ab") = 1/3` (verified
against CPython's `difflib`). -/
theorem similarity_asymmetry_counterexample :
    similarity ['a', 'b'] ['b', 'a', 'c', 'b'] = 2 / 3 ∧
      similarity ['b', 'a', 'c', 'b'] ['a', 'b'] = 1 / 3 ∧
      similarity ['a', 'b'] ['b', 'a', 'c', 'b']
        ≠ similarity ['b', 'a', 'c', 'b'] ['a', 'b'] := by
  have h1 : similarity ['a', 'b'] ['b', 'a', 'c', 'b'] = 2 / 3 := by
    have h : matchesTotal ['a', 'b'] ['b', 'a', 'c', 'b'] = 2 := by decide
    rw [similarity, h]
    norm_num
  have h2 : similarity ['b', 'a', 'c', 'b'] ['a', 'b'] = 1 / 3 := by
    have h : matchesTotal ['b', 'a', 'c', 'b'] ['a', 'b'] = 1 := by decide
    rw [similarity, h]
    norm_num
  refine ⟨h1, h2, ?_⟩
  rw [h1, h2]
  norm_num

/-- C6 (amended): argument order can change the score (the greedy matching
blocks depend on it), but the scorer is symmetric in the degenerate cases:
identical strings, and strings sharing no character. -/
theorem similarity_symm_degenerate (a b : Str)
    (h : a = b ∨ ∀ c ∈ a, c ∉ b) : similarity a b = similarity b a := by
  rcases h with rfl | h
  · rfl
  · by_cases hT : a.length + b.length = 0
    · have ha : a = [] := List.length_eq_zero.mp (by omega)
      have hb : b = [] := List.length_eq_zero.mp (by omega)
      rw [ha, hb]
    · have hflip : ∀ c ∈ b, c ∉ a := fun c hc hca => h c hca hc
      rw [similarity_disjoint a b hT h,
        similarity_disjoint b a (by omega) hflip]

/-- Witness for `similarity_symm_degenerate` on two disjoint strings. -/
theorem similarity_symm_degenerate_witness :
    ((['x'] : Str) = ['y'] ∨ ∀ c ∈ (['x'] : Str), c ∉ (['y'] : Str)) ∧
      similarity ['x'] ['y'] = similarity ['y'] ['x'] :=
  ⟨Or.inr (by decide), similarity_symm_degenerate _ _ (Or.inr (by decide))⟩

/-- C7: the scorer returns exactly 1.0 on a non-empty string compared with
itself, and exactly 0.0 on two non-empty strings with no common
character. -/
theorem similarity_identity_spec (a b : Str) :
    (a ≠ [] → similarity a a = 1) ∧
    (a ≠ [] → b ≠ [] → (∀ c ∈ a, c ∉ b) → similarity a b = 0) := by
  refine ⟨similarity_self a, fun ha hb h => ?_⟩
  have hT : a.length + b.length ≠ 0 := by
    have hla : a.length ≠ 0 := fun hz => ha (List.length_eq_zero.mp hz)
    omega
  exact similarity_disjoint a b hT h

/-- Witness for `similarity_identity_spec` at concrete strings. -/
theorem similarity_identity_spec_witness :
    ((['q'] : Str) ≠ []) ∧ similarity ['q'] ['q'] = 1 ∧
      ((['a'] : Str) ≠ []) ∧ ((['b'] : Str) ≠ []) ∧
      (∀ c ∈ (['a'] : Str), c ∉ (['b'] : Str)) ∧ similarity ['a'] ['b'] = 0 :=
  ⟨by decide, (similarity_identity_spec ['q'] ['q']).1 (by decide),
    by decide, by decide, by decide,
    (similarity_identity_spec ['a'] ['b']).2 (by decide) (by decide) (by decide)⟩

end AutoFaq
